import Mathlib

/-!
# ARIA agent runtime — verification of the natural-language specification

Shallow embedding of the ARIA agent runtime (Python) in Lean 4, together with
theorems settling the specification claims.  Each section embeds one source
module; definitions keep the source names where Lean allows it.  External
effects (MongoDB aggregations, HTTP calls, subprocesses, the JSON library)
enter the model as explicit parameters holding their observed outcomes.
-/

namespace Aria

/-! ## `aria/memory/long_term.py` — data model

The `Memory` class carries nine fields; ranking and context formatting only
read `id`, `content` and `content_type`, so the embedding carries those.
Scores are modelled in `ℚ` (the spec states the RRF arithmetic over exact
reciprocals). -/

structure Memory where
  id : String
  content : String
  content_type : String
  deriving Repr, DecidableEq

/-- One entry of the `scores` dict inside `LongTermMemory._rrf_fusion`:
insertion-ordered key, the first-seen `Memory` for that key, and the
accumulated RRF score. -/
structure RrfEntry where
  docId : String
  mem : Memory
  score : ℚ
  deriving Repr, DecidableEq

/-- One iteration of a `_rrf_fusion` loop body:
`scores[doc_id] = scores.get(doc_id, default); scores[doc_id]["score"] += 1/(k+rank+1)`.
A Python dict is insertion-ordered, so the map is an association list: an
existing key is updated in place, a fresh key is appended at the end. -/
def addRank (k rank : ℕ) (m : Memory) : List RrfEntry → List RrfEntry
  | [] => [⟨m.id, m, 1 / ((k : ℚ) + rank + 1)⟩]
  | e :: es =>
      if e.docId = m.id then
        { e with score := e.score + 1 / ((k : ℚ) + rank + 1) } :: es
      else
        e :: addRank k rank m es

/-- `for rank, (memory, _) in enumerate(results): ...` — fold one result list
into the scores map, `rank` counting from `r` (the source starts at 0). -/
def addList (k : ℕ) : ℕ → List (Memory × ℚ) → List RrfEntry → List RrfEntry
  | _, [], scores => scores
  | rank, (m, _) :: rest, scores => addList k (rank + 1) rest (addRank k rank m scores)

/-- The `scores` dict of `_rrf_fusion` after both loops: vector results first,
then lexical results. -/
def rrfScores (vec lex : List (Memory × ℚ)) (k : ℕ) : List RrfEntry :=
  addList k 0 lex (addList k 0 vec [])

/-- Stable insertion for a descending sort: `e` goes after every entry whose
score is ≥ its own, mirroring Python's stable `sorted(..., reverse=True)`. -/
def insertDesc (e : RrfEntry) : List RrfEntry → List RrfEntry
  | [] => [e]
  | x :: xs => if x.score < e.score then e :: x :: xs else x :: insertDesc e xs

/-- `sorted(scores.values(), key=lambda x: x["score"], reverse=True)` —
a stable descending sort by score. -/
def sortDesc (l : List RrfEntry) : List RrfEntry :=
  l.foldl (fun acc e => insertDesc e acc) []

/-- `LongTermMemory._rrf_fusion`: build the scores map, sort it descending by
fused score, return the memories. -/
def rrf_fusion (vec lex : List (Memory × ℚ)) (k : ℕ) : List Memory :=
  (sortDesc (rrfScores vec lex k)).map (fun e => e.mem)

/-- Outcome of one retrieval lane (`_vector_search` / `_lexical_search`): the
aggregation either returns scored documents or raises.  Both helpers catch
every exception and return the empty list, which this function mirrors. -/
def laneResolve (r : Except String (List (Memory × ℚ))) : List (Memory × ℚ) :=
  match r with
  | .ok l => l
  | .error _ => []

/-- `LongTermMemory.search` after the two lanes have resolved: fuse with
`k = 60` and return `fused[:limit]`. -/
def search (vres lres : Except String (List (Memory × ℚ))) (limit : ℕ) : List Memory :=
  (rrf_fusion (laneResolve vres) (laneResolve lres) 60).take limit

/-! ### Specification-side score, for comparison with the fused map -/

/-- 0-based position of the first document with the given id in a result
list. -/
def posOf (id : String) : List (Memory × ℚ) → Option ℕ
  | [] => none
  | (m, _) :: rest => if m.id = id then some 0 else (posOf id rest).map (· + 1)

/-- The spec's per-list contribution: `1/(k + rank)` with `rank` 1-based, `0`
when the document does not appear in the list. -/
def claimContrib (k : ℕ) (id : String) (l : List (Memory × ℚ)) : ℚ :=
  match posOf id l with
  | some i => 1 / ((k : ℚ) + (i + 1))
  | none => 0

/-- Score recorded for an id in the scores map (0 when absent). -/
def lookupScore (id : String) : List RrfEntry → ℚ
  | [] => 0
  | e :: es => if e.docId = id then e.score else lookupScore id es

/-- Code-side contribution of a result list starting at rank `r`, occurrence
by occurrence. -/
def contribFrom (k r : ℕ) (id : String) : List (Memory × ℚ) → ℚ
  | [] => 0
  | (m, _) :: rest =>
      (if m.id = id then 1 / ((k : ℚ) + r + 1) else 0) + contribFrom k (r + 1) id rest

theorem lookupScore_addRank (k rank : ℕ) (m : Memory) (id : String)
    (scores : List RrfEntry) :
    lookupScore id (addRank k rank m scores)
      = lookupScore id scores + (if m.id = id then 1 / ((k : ℚ) + rank + 1) else 0) := by
  induction scores with
  | nil =>
      by_cases h : m.id = id <;> simp [addRank, lookupScore, h]
  | cons e es ih =>
      simp only [addRank]
      by_cases he : e.docId = m.id
      · rw [if_pos he]
        by_cases hid : e.docId = id
        · have hm : m.id = id := by rw [← he, hid]
          simp [lookupScore, hid, hm]
        · have hm : ¬ m.id = id := fun h => hid (he.trans h)
          simp [lookupScore, hid, hm]
      · rw [if_neg he]
        by_cases hid : e.docId = id
        · have hm : ¬ m.id = id := fun h => he (by rw [h, ← hid])
          simp [lookupScore, hid, hm]
        · simp [lookupScore, hid, ih]

theorem lookupScore_addList (k : ℕ) (id : String) :
    ∀ (l : List (Memory × ℚ)) (r : ℕ) (scores : List RrfEntry),
    lookupScore id (addList k r l scores)
      = lookupScore id scores + contribFrom k r id l := by
  intro l
  induction l with
  | nil => intro r scores; simp [addList, contribFrom]
  | cons p rest ih =>
      intro r scores
      obtain ⟨m, s⟩ := p
      simp only [addList, contribFrom]
      rw [ih, lookupScore_addRank]
      ring

theorem contribFrom_of_not_mem (k : ℕ) (id : String) :
    ∀ (l : List (Memory × ℚ)) (r : ℕ),
    id ∉ l.map (fun p => p.1.id) → contribFrom k r id l = 0 := by
  intro l
  induction l with
  | nil => intro r _; simp [contribFrom]
  | cons p rest ih =>
      intro r h
      obtain ⟨m, s⟩ := p
      simp only [List.map_cons, List.mem_cons, not_or] at h
      simp only [contribFrom]
      rw [if_neg (fun hc => h.1 hc.symm), ih (r + 1) h.2, add_zero]

theorem contribFrom_eq_claim (k : ℕ) (id : String) :
    ∀ (l : List (Memory × ℚ)) (r : ℕ),
    (l.map (fun p => p.1.id)).Nodup →
    contribFrom k r id l
      = (match posOf id l with
         | some i => 1 / ((k : ℚ) + (r + i) + 1)
         | none => 0) := by
  intro l
  induction l with
  | nil => intro r _; simp [contribFrom, posOf]
  | cons p rest ih =>
      intro r hnd
      obtain ⟨m, s⟩ := p
      simp only [List.map_cons, List.nodup_cons] at hnd
      by_cases h : m.id = id
      · have hnot : id ∉ rest.map (fun p => p.1.id) := h ▸ hnd.1
        simp [contribFrom, posOf, h, contribFrom_of_not_mem k id rest (r + 1) hnot]
      · simp only [contribFrom, posOf, if_neg h, zero_add]
        rw [ih (r + 1) hnd.2]
        cases hp : posOf id rest with
        | none => simp [hp]
        | some i =>
            simp only [hp, Option.map_some']
            push_cast
            ring_nf

theorem claimContrib_eq (k : ℕ) (id : String) (l : List (Memory × ℚ))
    (h : (l.map (fun p => p.1.id)).Nodup) :
    contribFrom k 0 id l = claimContrib k id l := by
  rw [contribFrom_eq_claim k id l 0 h, claimContrib]
  cases posOf id l with
  | none => rfl
  | some i => push_cast; ring_nf

theorem lookupScore_rrfScores (vec lex : List (Memory × ℚ)) (k : ℕ) (id : String)
    (hv : (vec.map (fun p => p.1.id)).Nodup) (hl : (lex.map (fun p => p.1.id)).Nodup) :
    lookupScore id (rrfScores vec lex k) = claimContrib k id vec + claimContrib k id lex := by
  rw [rrfScores, lookupScore_addList, lookupScore_addList,
    claimContrib_eq k id vec hv, claimContrib_eq k id lex hl]
  simp [lookupScore]

/-! ### Sortedness of the fused output -/

/-- The entry scores are weakly descending. -/
def ScoresDesc (l : List RrfEntry) : Prop :=
  l.Pairwise (fun a b => b.score ≤ a.score)

theorem mem_insertDesc (e : RrfEntry) : ∀ (l : List RrfEntry) (y : RrfEntry),
    y ∈ insertDesc e l → y = e ∨ y ∈ l := by
  intro l
  induction l with
  | nil =>
      intro y h
      simp [insertDesc] at h
      exact Or.inl h
  | cons x xs ih =>
      intro y h
      simp only [insertDesc] at h
      by_cases hc : x.score < e.score
      · rw [if_pos hc] at h
        rcases List.mem_cons.mp h with h1 | h2
        · exact Or.inl h1
        · exact Or.inr h2
      · rw [if_neg hc] at h
        rcases List.mem_cons.mp h with h1 | h2
        · exact Or.inr (h1 ▸ List.mem_cons_self x xs)
        · rcases ih y h2 with h3 | h4
          · exact Or.inl h3
          · exact Or.inr (List.mem_cons_of_mem x h4)

theorem pairwise_insertDesc (e : RrfEntry) : ∀ (l : List RrfEntry),
    ScoresDesc l → ScoresDesc (insertDesc e l) := by
  intro l
  induction l with
  | nil => intro _; simp [insertDesc, ScoresDesc]
  | cons x xs ih =>
      intro hp
      rw [ScoresDesc, List.pairwise_cons] at hp
      simp only [insertDesc]
      by_cases hc : x.score < e.score
      · rw [if_pos hc, ScoresDesc, List.pairwise_cons]
        refine ⟨?_, List.pairwise_cons.mpr hp⟩
        intro y hy
        rcases List.mem_cons.mp hy with h1 | h2
        · exact h1 ▸ le_of_lt hc
        · exact le_trans (hp.1 y h2) (le_of_lt hc)
      · rw [if_neg hc, ScoresDesc, List.pairwise_cons]
        refine ⟨?_, ih hp.2⟩
        intro y hy
        rcases mem_insertDesc e xs y hy with h1 | h2
        · exact h1 ▸ not_lt.mp hc
        · exact hp.1 y h2

theorem foldl_insertDesc_scoresDesc : ∀ (l acc : List RrfEntry),
    ScoresDesc acc → ScoresDesc (l.foldl (fun acc e => insertDesc e acc) acc) := by
  intro l
  induction l with
  | nil => intro acc h; exact h
  | cons x xs ih => intro acc h; exact ih _ (pairwise_insertDesc x acc h)

theorem sortDesc_scoresDesc (l : List RrfEntry) : ScoresDesc (sortDesc l) :=
  foldl_insertDesc_scoresDesc l [] (by simp [ScoresDesc])

/-! ### Fusion with one empty lane keeps the other lane's order -/

/-- The entries produced for a result list none of whose ids was seen before:
list order, ranks `r, r+1, ...`. -/
def freshEntries (k r : ℕ) : List (Memory × ℚ) → List RrfEntry
  | [] => []
  | (m, _) :: rest => ⟨m.id, m, 1 / ((k : ℚ) + r + 1)⟩ :: freshEntries k (r + 1) rest

theorem addRank_of_not_mem (k r : ℕ) (m : Memory) : ∀ (scores : List RrfEntry),
    m.id ∉ scores.map (fun e => e.docId) →
    addRank k r m scores = scores ++ [⟨m.id, m, 1 / ((k : ℚ) + r + 1)⟩] := by
  intro scores
  induction scores with
  | nil => intro _; rfl
  | cons e es ih =>
      intro h
      simp only [List.map_cons, List.mem_cons, not_or] at h
      simp only [addRank]
      rw [if_neg (fun hc => h.1 hc.symm), ih h.2, List.cons_append]

theorem addList_fresh (k : ℕ) : ∀ (l : List (Memory × ℚ)) (r : ℕ) (scores : List RrfEntry),
    (l.map (fun p => p.1.id)).Nodup →
    (∀ id ∈ l.map (fun p => p.1.id), id ∉ scores.map (fun e => e.docId)) →
    addList k r l scores = scores ++ freshEntries k r l := by
  intro l
  induction l with
  | nil => intro r scores _ _; simp [addList, freshEntries]
  | cons p rest ih =>
      intro r scores hnd hdisj
      obtain ⟨m, s⟩ := p
      simp only [List.map_cons, List.nodup_cons] at hnd
      simp only [addList, freshEntries]
      rw [addRank_of_not_mem k r m scores (hdisj m.id (by simp))]
      rw [ih (r + 1) _ hnd.2 ?_]
      · simp
      · intro id hid
        simp only [List.map_append, List.mem_append, List.map_cons, List.map_nil,
          List.mem_cons, List.not_mem_nil, not_or]
        refine ⟨?_, ?_, fun h => h⟩
        · exact hdisj id (by simp only [List.map_cons, List.mem_cons]; exact Or.inr hid)
        · intro heq
          exact hnd.1 (heq ▸ hid)

theorem freshEntries_score_le (k : ℕ) : ∀ (l : List (Memory × ℚ)) (r : ℕ) (e : RrfEntry),
    e ∈ freshEntries k r l → e.score ≤ 1 / ((k : ℚ) + r + 1) := by
  intro l
  induction l with
  | nil => intro r e h; simp [freshEntries] at h
  | cons p rest ih =>
      intro r e h
      obtain ⟨m, s⟩ := p
      simp only [freshEntries, List.mem_cons] at h
      rcases h with h1 | h2
      · rw [h1]
      · have h0 : (0 : ℚ) < (k : ℚ) + r + 1 := by positivity
        have hle : ((k : ℚ) + r + 1) ≤ ((k : ℚ) + ((r : ℚ) + 1) + 1) := by linarith
        have := ih (r + 1) e h2
        push_cast at this
        exact le_trans this (one_div_le_one_div_of_le h0 hle)

theorem freshEntries_strictDesc (k : ℕ) : ∀ (l : List (Memory × ℚ)) (r : ℕ),
    (freshEntries k r l).Pairwise (fun a b => b.score < a.score) := by
  intro l
  induction l with
  | nil => intro r; simp [freshEntries]
  | cons p rest ih =>
      intro r
      obtain ⟨m, s⟩ := p
      simp only [freshEntries]
      rw [List.pairwise_cons]
      refine ⟨?_, ih (r + 1)⟩
      intro e he
      have h1 := freshEntries_score_le k rest (r + 1) e he
      have h0 : (0 : ℚ) < (k : ℚ) + r + 1 := by positivity
      have h2 : 1 / ((k : ℚ) + ((r : ℚ) + 1) + 1) < 1 / ((k : ℚ) + r + 1) :=
        one_div_lt_one_div_of_lt h0 (by linarith)
      push_cast at h1
      exact lt_of_le_of_lt h1 h2

theorem insertDesc_at_end (e : RrfEntry) : ∀ (l : List RrfEntry),
    (∀ x ∈ l, ¬ x.score < e.score) → insertDesc e l = l ++ [e] := by
  intro l
  induction l with
  | nil => intro _; rfl
  | cons x xs ih =>
      intro h
      simp only [insertDesc]
      rw [if_neg (h x (List.mem_cons_self x xs)),
        ih (fun y hy => h y (List.mem_cons_of_mem x hy)), List.cons_append]

theorem foldl_insertDesc_of_strictDesc : ∀ (l acc : List RrfEntry),
    ((acc ++ l).Pairwise (fun a b => b.score < a.score)) →
    l.foldl (fun acc e => insertDesc e acc) acc = acc ++ l := by
  intro l
  induction l with
  | nil => intro acc _; simp
  | cons x xs ih =>
      intro acc h
      simp only [List.foldl_cons]
      have hx : ∀ y ∈ acc, ¬ y.score < x.score := by
        intro y hy
        have := (List.pairwise_append.mp h).2.2 y hy x (List.mem_cons_self x xs)
        exact lt_asymm this
      rw [insertDesc_at_end x acc hx]
      have happ : (acc ++ [x]) ++ xs = acc ++ x :: xs := by simp
      rw [ih (acc ++ [x]) (by rw [happ]; exact h), happ]

theorem sortDesc_of_strictDesc (l : List RrfEntry)
    (h : l.Pairwise (fun a b => b.score < a.score)) : sortDesc l = l := by
  have := foldl_insertDesc_of_strictDesc l [] (by simpa using h)
  simpa [sortDesc] using this

theorem freshEntries_map_mem (k : ℕ) : ∀ (l : List (Memory × ℚ)) (r : ℕ),
    (freshEntries k r l).map (fun e => e.mem) = l.map (fun p => p.1) := by
  intro l
  induction l with
  | nil => intro r; rfl
  | cons p rest ih =>
      intro r
      obtain ⟨m, s⟩ := p
      simp [freshEntries, ih]

theorem rrf_fusion_nil_left (lex : List (Memory × ℚ))
    (hl : (lex.map (fun p => p.1.id)).Nodup) :
    rrf_fusion [] lex 60 = lex.map (fun p => p.1) := by
  rw [rrf_fusion, rrfScores,
    show addList 60 0 ([] : List (Memory × ℚ)) ([] : List RrfEntry) = [] from rfl,
    addList_fresh 60 lex 0 [] hl (by intro id _; simp), List.nil_append,
    sortDesc_of_strictDesc _ (freshEntries_strictDesc 60 lex 0)]
  exact freshEntries_map_mem 60 lex 0

theorem rrf_fusion_nil_right (vec : List (Memory × ℚ))
    (hv : (vec.map (fun p => p.1.id)).Nodup) :
    rrf_fusion vec [] 60 = vec.map (fun p => p.1) := by
  rw [rrf_fusion, rrfScores,
    show ∀ s, addList 60 0 ([] : List (Memory × ℚ)) s = s from fun s => rfl,
    addList_fresh 60 vec 0 [] hv (by intro id _; simp), List.nil_append,
    sortDesc_of_strictDesc _ (freshEntries_strictDesc 60 vec 0)]
  exact freshEntries_map_mem 60 vec 0

/-! ### Claims C1 and C2 -/

/-- C1. Hybrid search fuses the two result lists by Reciprocal Rank Fusion:
every candidate's fused score is the sum, over the lists in which it appears,
of `1/(k + rank)` with `k = 60` and `rank` 1-based within each list;
candidates are sorted by this score descending, and `search` returns the top
`limit` of them. -/
theorem rrf_fusion_spec (vec lex : List (Memory × ℚ)) (limit : ℕ)
    (hv : (vec.map (fun p => p.1.id)).Nodup)
    (hl : (lex.map (fun p => p.1.id)).Nodup) :
    (∀ id, lookupScore id (rrfScores vec lex 60)
        = claimContrib 60 id vec + claimContrib 60 id lex)
    ∧ ScoresDesc (sortDesc (rrfScores vec lex 60))
    ∧ search (.ok vec) (.ok lex) limit = (rrf_fusion vec lex 60).take limit :=
  ⟨fun id => lookupScore_rrfScores vec lex 60 id hv hl,
   sortDesc_scoresDesc _, rfl⟩

/-- Concrete memories for witnesses (the spec's seed scenario S5). -/
def memA : Memory := ⟨"A", "prefers dark roast coffee", "preference"⟩

def memB : Memory := ⟨"B", "lives in Berlin", "fact"⟩

def memC : Memory := ⟨"C", "uses dvorak keyboard", "preference"⟩

def wVec : List (Memory × ℚ) := [(memA, 9/10), (memB, 8/10)]

def wLex : List (Memory × ℚ) := [(memA, 7/10), (memC, 6/10)]

theorem rrf_fusion_spec_witness :
    ((wVec.map (fun p => p.1.id)).Nodup ∧ (wLex.map (fun p => p.1.id)).Nodup)
    ∧ ((∀ id, lookupScore id (rrfScores wVec wLex 60)
          = claimContrib 60 id wVec + claimContrib 60 id wLex)
       ∧ ScoresDesc (sortDesc (rrfScores wVec wLex 60))
       ∧ search (.ok wVec) (.ok wLex) 2 = (rrf_fusion wVec wLex 60).take 2) :=
  ⟨⟨by decide, by decide⟩, rrf_fusion_spec wVec wLex 2 (by decide) (by decide)⟩

/-- C2. If one retrieval lane fails (its aggregation raises), `search` is
still defined — the failed lane contributes the empty list — and the result
is the other lane's ranking alone, truncated to `limit`.  `search` is a total
function into `List Memory`: no error outcome exists. -/
theorem search_degrades_gracefully (vec lex : List (Memory × ℚ)) (e1 e2 : String)
    (limit : ℕ)
    (hv : (vec.map (fun p => p.1.id)).Nodup)
    (hl : (lex.map (fun p => p.1.id)).Nodup) :
    search (.error e1) (.ok lex) limit = (lex.map (fun p => p.1)).take limit
    ∧ search (.ok vec) (.error e2) limit = (vec.map (fun p => p.1)).take limit
    ∧ search (.error e1) (.error e2) limit = [] := by
  refine ⟨?_, ?_, ?_⟩
  · rw [search]
    simp only [laneResolve]
    rw [rrf_fusion_nil_left lex hl]
  · rw [search]
    simp only [laneResolve]
    rw [rrf_fusion_nil_right vec hv]
  · rw [search]
    simp only [laneResolve]
    simp [rrf_fusion, rrfScores, addList, sortDesc]

theorem search_degrades_gracefully_witness :
    ((wVec.map (fun p => p.1.id)).Nodup ∧ (wLex.map (fun p => p.1.id)).Nodup)
    ∧ (search (.error "no vector index") (.ok wLex) 2
          = (wLex.map (fun p => p.1)).take 2
       ∧ search (.ok wVec) (.error "no text index") 2
          = (wVec.map (fun p => p.1)).take 2
       ∧ search (.error "no vector index") (.error "no text index") 2 = []) :=
  ⟨⟨by decide, by decide⟩,
   search_degrades_gracefully wVec wLex "no vector index" "no text index" 2
     (by decide) (by decide)⟩

/-! ## `aria/config.py` — the configuration constants the claims touch -/

namespace Config

/-- `embedding_dimension: int = 1024` (default; the constant `D`). -/
def embedding_dimension : ℕ := 1024

/-- `embedding_ollama_model: str = "qwen3-embedding:0.6b"` (default). -/
def embedding_ollama_model : String := "qwen3-embedding:0.6b"

end Config

/-! ## `aria/memory/long_term.py` — embedding binary format

`embedding_to_binary` runs `struct.pack(f'{n}f', *v)`: each IEEE-754 float32
written as 4 bytes, little-endian on every supported platform.
`binary_to_embedding` computes `num_floats = len(data) // 4` and runs
`struct.unpack(f'{n}f', data)`, which raises unless the buffer length is
exactly `4 * num_floats`.  Floats are modelled by their 32-bit patterns
(naturals below `2^32`), bytes by naturals below 256; the decoder is
`Option`-valued to mirror the `struct.error` on a ragged buffer. -/

/-- Little-endian byte serialization of one 32-bit pattern
(`256^2 = 65536`, `256^3 = 16777216`). -/
def word32ToBytesLE (w : ℕ) : List ℕ :=
  [w % 256, w / 256 % 256, w / 65536 % 256, w / 16777216 % 256]

/-- `embedding_to_binary`: densely packed little-endian float32 sequence. -/
def embedding_to_binary (v : List ℕ) : List ℕ :=
  (v.map word32ToBytesLE).flatten

/-- Little-endian byte deserialization of one 32-bit pattern. -/
def bytesToWord32LE (b0 b1 b2 b3 : ℕ) : ℕ :=
  b0 + 256 * b1 + 65536 * b2 + 16777216 * b3

/-- Read the buffer four bytes at a time. -/
def unpackFloats : List ℕ → List ℕ
  | b0 :: b1 :: b2 :: b3 :: rest => bytesToWord32LE b0 b1 b2 b3 :: unpackFloats rest
  | _ => []

/-- `binary_to_embedding`: divide the byte length by 4 and unpack; a length
that is not a multiple of 4 makes `struct.unpack` raise. -/
def binary_to_embedding (bytes : List ℕ) : Option (List ℕ) :=
  if bytes.length % 4 = 0 then some (unpackFloats bytes) else none

theorem word32_roundtrip (w : ℕ) (h : w < 2 ^ 32) :
    unpackFloats (word32ToBytesLE w) = [w] := by
  have h' : w < 4294967296 := by norm_num at h; exact h
  simp only [word32ToBytesLE, unpackFloats, bytesToWord32LE]
  congr 1
  omega

theorem embedding_to_binary_length (v : List ℕ) :
    (embedding_to_binary v).length = 4 * v.length := by
  induction v with
  | nil => rfl
  | cons w rest ih =>
      simp only [embedding_to_binary, List.map_cons, List.flatten_cons,
        List.length_append, word32ToBytesLE, List.length_cons, List.length_nil]
      simp only [embedding_to_binary] at ih
      rw [ih]
      ring

theorem unpackFloats_pack (v : List ℕ) (h : ∀ w ∈ v, w < 2 ^ 32) :
    unpackFloats (embedding_to_binary v) = v := by
  induction v with
  | nil => rfl
  | cons w rest ih =>
      have hw : w < 4294967296 := by
        have := h w (List.mem_cons_self w rest)
        norm_num at this
        exact this
      have hrest := ih (fun x hx => h x (List.mem_cons_of_mem w hx))
      have hstep : unpackFloats (embedding_to_binary (w :: rest))
          = bytesToWord32LE (w % 256) (w / 256 % 256) (w / 65536 % 256)
              (w / 16777216 % 256) :: unpackFloats (embedding_to_binary rest) := rfl
      rw [hstep, hrest]
      congr 1
      simp only [bytesToWord32LE]
      omega

/-- C7. Decoding a persisted embedding returns the original vector
bit-exactly: for every float32 vector (as 32-bit patterns),
`binary_to_embedding (embedding_to_binary v) = v`, and the binary form is
`4 · len(v)` bytes long. -/
theorem embedding_binary_roundtrip (v : List ℕ) (h : ∀ w ∈ v, w < 2 ^ 32) :
    binary_to_embedding (embedding_to_binary v) = some v
    ∧ (embedding_to_binary v).length = 4 * v.length := by
  refine ⟨?_, embedding_to_binary_length v⟩
  rw [binary_to_embedding, if_pos (by rw [embedding_to_binary_length]; omega),
    unpackFloats_pack v h]

theorem embedding_binary_roundtrip_witness :
    (∀ w ∈ [0, 1, 1078530011, 4294967295], w < 2 ^ 32)
    ∧ (binary_to_embedding (embedding_to_binary [0, 1, 1078530011, 4294967295])
         = some [0, 1, 1078530011, 4294967295]
       ∧ (embedding_to_binary [0, 1, 1078530011, 4294967295]).length
         = 4 * ([0, 1, 1078530011, 4294967295] : List ℕ).length) :=
  ⟨by decide, embedding_binary_roundtrip [0, 1, 1078530011, 4294967295] (by decide)⟩

/-! ## `aria/memory/embeddings.py` — `EmbeddingService.embed`

The provider calls are HTTP requests; their outcomes enter as parameters.
`embed` forwards to the fallback when `use_fallback` is set and a fallback is
configured; otherwise it tries the primary and, on any failure, the fallback
if configured.  The method performs NO check of the returned vector's length
against `settings.embedding_dimension` (the service stores
`self.dimension` but never reads it). -/

def EmbeddingService.embed (primary : Except String (List ℕ))
    (fallback : Option (Except String (List ℕ))) (use_fallback : Bool) :
    Except String (List ℕ) :=
  if use_fallback && fallback.isSome then
    fallback.getD (Except.error "unreachable")
  else
    match primary with
    | .ok v => .ok v
    | .error e =>
        match fallback with
        | some f => f
        | none => .error e

/-! ## `aria/memory/long_term.py` — `create_memory` / `update_memory` -/

/-- The memory document fields written by `create_memory` that the claims
read (timestamps elided; `embedding` holds the stored bytes). -/
structure MemoryDoc where
  content : String
  content_type : String
  embedding : List ℕ
  embedding_model : String
  status : String
  importance : ℚ
  categories : List String
  access_count : ℕ
  deriving Repr, DecidableEq

/-- `LongTermMemory.create_memory` after `embedding_service.embed(content)`
returned `embedding`: pack the vector and insert the document.  The vector's
length is not compared with the configured dimension. -/
def create_memory (content content_type : String) (categories : List String)
    (importance : ℚ) (embedding : List ℕ) : MemoryDoc :=
  { content := content
    content_type := content_type
    embedding := embedding_to_binary embedding
    embedding_model := Config.embedding_ollama_model
    status := "active"
    importance := importance
    categories := categories
    access_count := 0 }

/-- `LongTermMemory.update_memory` restricted to the fields the claim reads:
when `content` is among the updates, the embedding is regenerated from the
provider's vector and rewritten in the same `$set`. -/
def update_memory (doc : MemoryDoc) (newContent : Option String)
    (newEmbedding : List ℕ) : MemoryDoc :=
  match newContent with
  | some c =>
      { doc with
          content := c
          embedding := embedding_to_binary newEmbedding
          embedding_model := Config.embedding_ollama_model }
  | none => doc

/-- C8 counterexample: with the configured `D = 1024`, a provider returning
a 3-element vector is accepted by `EmbeddingService.embed` (nothing is fatal,
at startup or later), and `create_memory` stores a 12-byte embedding,
which is not `4 · D`. -/
theorem create_memory_dimension_unchecked :
    Config.embedding_dimension = 1024
    ∧ EmbeddingService.embed (.ok [1, 2, 3]) none false = .ok [1, 2, 3]
    ∧ (create_memory "x" "fact" [] (1/2) [1, 2, 3]).embedding.length = 12
    ∧ (create_memory "x" "fact" [] (1/2) [1, 2, 3]).embedding.length
        ≠ 4 * Config.embedding_dimension :=
  ⟨rfl, rfl, rfl, by decide⟩

/-- C8 (amended): every memory stored by `create_memory` (or rewritten by
`update_memory` with new content) has an embedding of byte length `4 · L`
where `L` is the length of the vector the embedding provider returned; no
dimension check compares `L` with the configured `D`, so the byte length is
`4 · D` only when the provider returns `D`-dimensional vectors. -/
theorem stored_embedding_length (content ct c : String) (cats : List String)
    (imp : ℚ) (v : List ℕ) (doc : MemoryDoc) :
    (create_memory content ct cats imp v).embedding.length = 4 * v.length
    ∧ (update_memory doc (some c) v).embedding.length = 4 * v.length :=
  ⟨embedding_to_binary_length v, embedding_to_binary_length v⟩

/-! ## `aria/tools/base.py` — tool results and argument validation

`ToolResult` also carries `duration_ms`, `metadata`, `started_at`,
`completed_at`; wall-clock fields are not statable and are elided.
Argument values are opaque to validation — only the key set matters — so an
arguments dict is its ordered key list. -/

inductive ToolStatus
  | pending
  | running
  | success
  | error
  deriving Repr, DecidableEq

structure ToolResult where
  tool_name : String
  status : ToolStatus
  output : Option String := none
  error : Option String := none
  deriving Repr, DecidableEq

/-- The fields of `ToolParameter` read by `validate_arguments`. -/
structure ToolParameter where
  name : String
  type : String
  required : Bool
  deriving Repr, DecidableEq

/-- First loop of `BaseTool.validate_arguments`: the first required parameter
missing from the arguments. -/
def findMissingRequired (params : List ToolParameter) (args : List String) :
    Option String :=
  match params with
  | [] => none
  | p :: rest =>
      if p.required && !(args.contains p.name) then some p.name
      else findMissingRequired rest args

/-- Second loop: the first argument key not among the parameter names. -/
def findUnknownArg (params : List ToolParameter) (args : List String) :
    Option String :=
  match args with
  | [] => none
  | a :: rest =>
      if (params.map ToolParameter.name).contains a then findUnknownArg params rest
      else some a

/-- `BaseTool.validate_arguments`: `(is_valid, error_message)`. -/
def validate_arguments (params : List ToolParameter) (args : List String) :
    Bool × Option String :=
  match findMissingRequired params args with
  | some n => (false, some ("Missing required parameter: " ++ n))
  | none =>
      match findUnknownArg params args with
      | some a => (false, some ("Unknown parameter: " ++ a))
      | none => (true, none)

/-! ## `aria/tools/router.py` — `ToolRouter.execute_tool` -/

/-- A registry entry: the dict `self._tools` maps a unique name to a tool;
`register_tool` refuses duplicates, so a list with `find?` models it. -/
structure RegisteredTool where
  name : String
  parameters : List ToolParameter
  deriving Repr, DecidableEq

/-- Outcome of `await asyncio.wait_for(tool.execute(arguments), timeout)`:
a returned result, a timeout, or an exception escaping the tool. -/
inductive ExecOutcome
  | ok (r : ToolResult)
  | timeout
  | raised (msg : String)
  deriving Repr, DecidableEq

/-- `ToolRouter.execute_tool`: locate, validate, run under a timeout; every
failure is reported as a `ToolResult` with status `error` (the function is
total — nothing escapes as a thrown error). -/
def ToolRouter.execute_tool (tools : List RegisteredTool) (tool_name : String)
    (args : List String) (timeout_seconds : ℕ) (outcome : ExecOutcome) :
    ToolResult :=
  match tools.find? (fun t => t.name == tool_name) with
  | none =>
      { tool_name := tool_name, status := .error,
        error := some ("Tool " ++ tool_name ++ " not found") }
  | some tool =>
      let v := validate_arguments tool.parameters args
      if v.1 then
        match outcome with
        | .ok r => r
        | .timeout =>
            { tool_name := tool_name, status := .error,
              error := some ("Tool execution timed out after "
                ++ toString timeout_seconds ++ " seconds") }
        | .raised e =>
            { tool_name := tool_name, status := .error,
              error := some ("Tool execution failed: " ++ e) }
      else
        { tool_name := tool_name, status := .error,
          error := some ("Invalid arguments: " ++ v.2.getD "") }

/-- C3. `execute_tool` always returns a `ToolResult` (it is a total
function); an unknown tool name, an argument-validation failure, a timeout,
and an exception raised inside the tool each yield status `error`. -/
theorem execute_tool_errors_reported (tools : List RegisteredTool)
    (tool_name : String) (args : List String) (timeout_seconds : ℕ)
    (outcome : ExecOutcome)
    (h : tools.find? (fun t => t.name == tool_name) = none
         ∨ (∃ t, tools.find? (fun t => t.name == tool_name) = some t
                 ∧ (validate_arguments t.parameters args).1 = false)
         ∨ outcome = .timeout
         ∨ ∃ e, outcome = .raised e) :
    (ToolRouter.execute_tool tools tool_name args timeout_seconds outcome).status
      = .error := by
  unfold ToolRouter.execute_tool
  rcases h with h | ⟨t, ht, hv⟩ | h | ⟨e, he⟩
  · rw [h]
  · rw [ht]
    simp only [hv, Bool.false_eq_true, if_false]
  · cases hf : tools.find? (fun t => t.name == tool_name) with
    | none => rfl
    | some t =>
        by_cases hv : (validate_arguments t.parameters args).1
        · simp only [hv, if_true, h]
        · simp only [hv, Bool.false_eq_true, if_false]
  · cases hf : tools.find? (fun t => t.name == tool_name) with
    | none => rfl
    | some t =>
        by_cases hv : (validate_arguments t.parameters args).1
        · simp only [hv, if_true, he]
        · simp only [hv, Bool.false_eq_true, if_false]

/-- The registered filesystem tool surface used by witnesses. -/
def fsToolEntry : RegisteredTool :=
  ⟨"filesystem",
   [⟨"operation", "string", true⟩, ⟨"path", "string", true⟩,
    ⟨"content", "string", false⟩, ⟨"create_parents", "boolean", false⟩]⟩

theorem execute_tool_errors_reported_witness :
    (([fsToolEntry].find? (fun t => t.name == "no_such_tool") = none
      ∨ (∃ t, [fsToolEntry].find? (fun t => t.name == "no_such_tool") = some t
              ∧ (validate_arguments t.parameters ["path"]).1 = false)
      ∨ ExecOutcome.timeout = ExecOutcome.timeout
      ∨ ∃ e, ExecOutcome.timeout = ExecOutcome.raised e)
     ∧ (ToolRouter.execute_tool [fsToolEntry] "no_such_tool" ["path"] 300
          ExecOutcome.timeout).status = .error)
    ∧ (ToolRouter.execute_tool [fsToolEntry] "filesystem" ["path"] 300
        (ExecOutcome.ok ⟨"filesystem", .success, some "ok", none⟩)).status
        = .error :=
  ⟨⟨Or.inl (by decide),
    execute_tool_errors_reported [fsToolEntry] "no_such_tool" ["path"] 300
      ExecOutcome.timeout (Or.inl (by decide))⟩,
   by decide⟩

/-! ## `aria/tools/builtin/filesystem.py` — path validation

`pathlib.Path(path).resolve()` resolves symlinks against the real
filesystem; a resolved absolute path is modelled as its component list, and
`resolved.relative_to(base)` succeeds exactly when `base` is a component
prefix of `resolved`.  The seven operations act on the real filesystem;
their behaviour enters as the `runOp` parameter — the claim is about the
validation gate in front of them. -/

abbrev FsPath := List String

/-- `FilesystemTool._validate_path`: the denied loop runs first; the first
matching denied base returns, any matching allowed base accepts, otherwise
the path is outside allowed locations. -/
def FilesystemTool.validate_path (allowed denied : List FsPath) (p : FsPath) :
    Bool × Option String :=
  if denied.any (fun d => d.isPrefixOf p) then
    (false, some "Access denied: path is in denied location")
  else if allowed.any (fun a => a.isPrefixOf p) then
    (true, none)
  else
    (false, some "Access denied: path is outside allowed locations")

/-- `FilesystemTool.execute`: validate, then dispatch the operation. -/
def FilesystemTool.execute (allowed denied : List FsPath) (operation : String)
    (p : FsPath) (runOp : String → FsPath → ToolResult) : ToolResult :=
  let v := FilesystemTool.validate_path allowed denied p
  if v.1 then runOp operation p
  else { tool_name := "filesystem", status := .error, error := v.2 }

/-- C9. The denylist takes precedence over the allowlist: a resolved path
under any denied base yields a `ToolResult` with status `error` for every
operation, even when the path is also under an allowed base, because the
denied loop runs before the allowed loop. -/
theorem filesystem_denied_precedence (allowed denied : List FsPath) (p : FsPath)
    (operation : String) (runOp : String → FsPath → ToolResult)
    (hd : ∃ d ∈ denied, d.isPrefixOf p = true) :
    (FilesystemTool.execute allowed denied operation p runOp).status = .error
    ∧ (FilesystemTool.validate_path allowed denied p).1 = false := by
  obtain ⟨d, hdm, hdp⟩ := hd
  have hany : denied.any (fun d => d.isPrefixOf p) = true :=
    List.any_eq_true.mpr ⟨d, hdm, hdp⟩
  constructor
  · simp [FilesystemTool.execute, FilesystemTool.validate_path, hany]
  · simp [FilesystemTool.validate_path, hany]

theorem filesystem_denied_precedence_witness :
    (∃ d ∈ [["home", "user", "secrets"]],
        List.isPrefixOf d ["home", "user", "secrets", "key.pem"] = true)
    ∧ (∃ a ∈ [["home", "user"]],
        List.isPrefixOf a ["home", "user", "secrets", "key.pem"] = true)
    ∧ ((FilesystemTool.execute [["home", "user"]] [["home", "user", "secrets"]]
          "read_file" ["home", "user", "secrets", "key.pem"]
          (fun _ _ => ⟨"filesystem", .success, some "file contents", none⟩)).status
        = .error
       ∧ (FilesystemTool.validate_path [["home", "user"]]
            [["home", "user", "secrets"]]
            ["home", "user", "secrets", "key.pem"]).1 = false) :=
  ⟨⟨["home", "user", "secrets"], by decide, by decide⟩,
   ⟨["home", "user"], by decide, by decide⟩,
   filesystem_denied_precedence [["home", "user"]] [["home", "user", "secrets"]]
     ["home", "user", "secrets", "key.pem"] "read_file"
     (fun _ _ => ⟨"filesystem", .success, some "file contents", none⟩)
     ⟨["home", "user", "secrets"], by decide, by decide⟩⟩

/-! ## `aria/llm/base.py` — the streaming contract

`StreamChunk` is a dataclass tagged by a `type` string with the payload
fields of that type; an inductive carries the same information.  Tool-call
arguments are a JSON object whose values validation and bookkeeping never
inspect, so an arguments map is an association list with opaque string
values. -/

structure ToolCall where
  id : String
  name : String
  arguments : List (String × String)
  deriving Repr, DecidableEq

inductive StreamChunk
  | text (content : String)
  | tool_call (tc : ToolCall)
  | done (input_tokens output_tokens : ℕ)
  | error (msg : String)
  deriving Repr, DecidableEq

/-! ## `aria/llm/anthropic.py` — `AnthropicAdapter.stream`

The SDK's stream events enter as data; `json.loads` enters as the `parse`
parameter (any parser of JSON objects).  The event loop is an
`if/elif/elif` chain on `event.type`; the embedding keeps the chain's exact
order and conditions, including the second `content_block_delta` arm, which
in the source can never run because the first arm already matches that
type. -/

/-- The fields of a stream event the loop reads.  `deltaText` /
`deltaPartialJson` being `some` models `hasattr(event.delta, ...)`;
`blockType` models `event.content_block.type`. -/
structure AnthEvent where
  type : String
  deltaText : Option String := none
  deltaPartialJson : Option String := none
  blockType : Option String := none
  blockId : String := ""
  blockName : String := ""
  deriving Repr, DecidableEq

/-- An entry of the `tool_uses` accumulator: `{id, name, input}` with
`input` initialized to the empty map. -/
structure AnthToolUse where
  id : String
  name : String
  input : List (String × String)
  deriving Repr, DecidableEq

/-- One iteration of the event loop: the chunks yielded and the new
`tool_uses` list.  Branch order follows the source exactly. -/
def anthropicStep (parse : String → Option (List (String × String)))
    (tus : List AnthToolUse) (ev : AnthEvent) :
    List StreamChunk × List AnthToolUse :=
  if ev.type = "content_block_delta" then
    (match ev.deltaText with
     | some t => [StreamChunk.text t]
     | none => [], tus)
  else if ev.type = "content_block_start" then
    if ev.blockType = some "tool_use" then
      ([], tus ++ [⟨ev.blockId, ev.blockName, []⟩])
    else ([], tus)
  else if ev.type = "content_block_delta" then
    -- unreachable in the source: the first arm of the chain already
    -- matched this event type
    (match ev.deltaPartialJson, tus.getLast? with
     | some s, some last =>
         (match parse s with
          | some args => ([], tus.dropLast ++ [{ last with input := args }])
          | none => ([], tus))
     | _, _ => ([], tus))
  else ([], tus)

def anthropicLoop (parse : String → Option (List (String × String))) :
    List AnthEvent → List AnthToolUse → List StreamChunk × List AnthToolUse
  | [], tus => ([], tus)
  | ev :: rest, tus =>
      let (cs, tus1) := anthropicStep parse tus ev
      let (cs2, tus2) := anthropicLoop parse rest tus1
      (cs ++ cs2, tus2)

/-- `AnthropicAdapter.stream` on a turn that completes normally: run the
event loop, then yield one `tool_call` per accumulated tool use, then the
usage `done` chunk from the final message. -/
def AnthropicAdapter.stream (parse : String → Option (List (String × String)))
    (events : List AnthEvent) (input_tokens output_tokens : ℕ) :
    List StreamChunk :=
  let (cs, tus) := anthropicLoop parse events []
  cs ++ tus.map (fun tu => StreamChunk.tool_call ⟨tu.id, tu.name, tu.input⟩)
    ++ [StreamChunk.done input_tokens output_tokens]

/-- C4 evaluated at the failing input: a turn whose tool-use input arrives
as a parseable JSON fragment still emits its `tool_call` with empty-map
arguments — even under a parser that succeeds on every fragment — because
the `partial_json` arm of the `if/elif` chain is shadowed by the earlier
`content_block_delta` arm.  No error chunk is emitted, but the accumulated
arguments are lost, contradicting the claim that the fragments are
accumulated and parsed into the emitted `tool_call`. -/
theorem anthropic_tool_arguments_always_empty :
    AnthropicAdapter.stream (fun _ => some [("city", "Berlin")])
      [{ type := "content_block_start", blockType := some "tool_use",
         blockId := "toolu_1", blockName := "get_weather" },
       { type := "content_block_delta", deltaPartialJson := some "fragment" }]
      3 5
    = [StreamChunk.tool_call ⟨"toolu_1", "get_weather", []⟩,
       StreamChunk.done 3 5]
    ∧ (fun _ => some [("city", "Berlin")] :
        String → Option (List (String × String))) "fragment"
      = some [("city", "Berlin")] := by
  constructor
  · rfl
  · rfl

/-! ## `aria/db` — the conversation document and its atomic updates

`updated_at` is wall-clock time; the model records, per update, that the
update sets it (`setUpdatedAt`), without a clock. -/

structure Stats where
  message_count : ℕ
  total_tokens : ℕ
  tool_calls : ℕ
  deriving Repr, DecidableEq

/-- A message document; fields irrelevant to the claims (uuid, timestamps,
model tag, token stats) elided. -/
structure Msg where
  role : String
  content : String
  tool_call_id : Option String := none
  tool_name : Option String := none
  tool_calls : List ToolCall := []
  memory_processed : Bool := false
  deriving Repr, DecidableEq

structure Conversation where
  agent_id : String
  messages : List Msg
  stats : Stats
  deriving Repr, DecidableEq

/-- One `update_one` on the conversation: an optional `$push` to `messages`,
`$set` of `updated_at`, and `$inc` of the three counters, applied
atomically. -/
structure AtomicUpdate where
  push : Option Msg
  setUpdatedAt : Bool
  incMessageCount : ℕ
  incTotalTokens : ℕ
  incToolCalls : ℕ
  deriving Repr, DecidableEq

def applyUpdate (c : Conversation) (u : AtomicUpdate) : Conversation :=
  { c with
      messages := c.messages ++ (match u.push with | some m => [m] | none => [])
      stats :=
        { message_count := c.stats.message_count + u.incMessageCount
          total_tokens := c.stats.total_tokens + u.incTotalTokens
          tool_calls := c.stats.tool_calls + u.incToolCalls } }

/-! ## Agent documents (MongoDB dicts read with `.get` defaults) -/

structure Capabilities where
  memory_enabled : Option Bool := none
  tools_enabled : Option Bool := none
  deriving Repr, DecidableEq

structure MemoryConfig where
  auto_extract : Option Bool := none
  short_term_messages : Option ℕ := none
  long_term_results : Option ℕ := none
  deriving Repr, DecidableEq

structure LlmConfig where
  backend : String
  model : String
  deriving Repr, DecidableEq

/-- An entry of `fallback_chain`; `on_error` is
`conditions.get("on_error", True)`. -/
structure FallbackEntry where
  llm : LlmConfig
  on_error : Option Bool := none
  deriving Repr, DecidableEq

structure AgentDoc where
  system_prompt : String
  llm : LlmConfig
  fallback_chain : List FallbackEntry := []
  capabilities : Option Capabilities := none
  memory_config : Option MemoryConfig := none
  enabled_tools : List String := []
  deriving Repr, DecidableEq

/-! ## `aria/core/context.py` — `ContextBuilder.build_messages` -/

/-- A message as handed to the LLM (`llm.base.Message` with only the fields
the builder sets). -/
structure LMsg where
  role : String
  content : String
  deriving Repr, DecidableEq

/-- `f"- [{memory.content_type}] {memory.content}"` -/
def formatMemoryLine (m : Memory) : String :=
  "- [" ++ m.content_type ++ "] " ++ m.content

/-- The memory block appended to the system prompt when memories match. -/
def memoryBlock (ms : List Memory) : String :=
  "\n\n## Relevant Long-Term Memories\n\n"
    ++ String.intercalate "\n" (ms.map formatMemoryLine)
    ++ "\n\nUse these memories to provide personalized and contextual responses.\n"

/-- `ContextBuilder.build_messages`.  DB-derived inputs are parameters:
`searchResults` is what `long_term.search(user_message, ...)` returns,
`convContext` the short-term window.  Returns the assembled message list
and whether the long-term search ran (it runs exactly when the memory gate
is enabled, regardless of how many memories match). -/
def build_messages (agent : AgentDoc) (user_message : String)
    (searchResults : List Memory) (convContext : List LMsg)
    (include_memories : Bool) : List LMsg × Bool :=
  let memEnabled := include_memories &&
    (match agent.capabilities with
     | some c => c.memory_enabled.getD false
     | none => false)
  let memory_context :=
    if memEnabled then
      if searchResults.isEmpty then "" else memoryBlock searchResults
    else ""
  (LMsg.mk "system" (agent.system_prompt ++ memory_context)
     :: convContext ++ [LMsg.mk "user" user_message],
   memEnabled)

/-- The `include_memories` argument the orchestrator passes:
`agent.get("capabilities", {}).get("memory_enabled", True)`. -/
def orchestratorIncludeMemories (agent : AgentDoc) : Bool :=
  match agent.capabilities with
  | some c => c.memory_enabled.getD true
  | none => true

/-! ## `aria/core/orchestrator.py` — `_get_llm_with_fallback` -/

/-- Walk the fallback chain with the original error pending; an entry is
tried when `conditions.get("on_error", True)` holds and is skipped when its
adapter construction fails.  `construct` is `llm_manager.get_adapter`'s
outcome per `(backend, model)`. -/
def tryFallbacks (construct : String → String → Except String Unit)
    (e : String) : List FallbackEntry → Except String (LlmConfig × Bool)
  | [] => .error e
  | fb :: rest =>
      if fb.on_error.getD true then
        match construct fb.llm.backend fb.llm.model with
        | .ok _ => .ok (fb.llm, true)
        | .error _ => tryFallbacks construct e rest
      else tryFallbacks construct e rest

/-- `Orchestrator._get_llm_with_fallback` (called with `error=None`):
primary first, then the chain; re-raises the original error when nothing
works.  Returns `(llm_config, is_fallback)`. -/
def getLlmWithFallback (agent : AgentDoc)
    (construct : String → String → Except String Unit) :
    Except String (LlmConfig × Bool) :=
  match construct agent.llm.backend agent.llm.model with
  | .ok _ => .ok (agent.llm, false)
  | .error e => tryFallbacks construct e agent.fallback_chain

/-! ## `aria/core/orchestrator.py` — `process_message`

The run is modelled as the trace of its observable events, in program
order: conversation updates, the adapter acquisition, chunks yielded to the
client, tool executions, and the background-extraction hand-off.  External
outcomes (DB lookups, adapter construction, the adapter's chunk stream,
tool results) are inputs. -/

inductive OEvent
  | dbUpdate (u : AtomicUpdate)
  | acquireAdapter
  | emit (c : StreamChunk)
  | toolExec (name : String)
  | scheduleExtraction
  deriving Repr, DecidableEq

structure OrchEnv where
  conversation : Option Conversation
  agent : Option AgentDoc
  construct : String → String → Except String Unit
  searchResults : List Memory
  convContext : List LMsg
  streamChunks : List StreamChunk
  execTool : ToolCall → ToolResult
  hasRouter : Bool

/-- Accumulators of the streaming loop (step 7). -/
structure StreamAcc where
  parts : List String
  tool_calls : List ToolCall
  usage : Option (ℕ × ℕ)
  deriving Repr, DecidableEq

/-- Step 7: forward `text` / `tool_call` / `done` chunks while accumulating;
on `error`, forward it and stop (`errored = true`). -/
def orchStreamLoop : List StreamChunk → StreamAcc →
    List OEvent × StreamAcc × Bool
  | [], acc => ([], acc, false)
  | c :: rest, acc =>
      match c with
      | .text s =>
          let r := orchStreamLoop rest { acc with parts := acc.parts ++ [s] }
          (OEvent.emit c :: r.1, r.2)
      | .tool_call tc =>
          let r := orchStreamLoop rest
            { acc with tool_calls := acc.tool_calls ++ [tc] }
          (OEvent.emit c :: r.1, r.2)
      | .done i o =>
          let r := orchStreamLoop rest { acc with usage := some (i, o) }
          (OEvent.emit c :: r.1, r.2)
      | .error _ => ([OEvent.emit c], acc, true)

def statusValue : ToolStatus → String
  | .pending => "pending"
  | .running => "running"
  | .success => "success"
  | .error => "error"

/-- The role=tool message appended for one executed tool call:
`str(result.output) if result.output else (result.error or "")` (Python
truthiness: an empty output string falls through to the error). -/
def toolResultMsg (execTool : ToolCall → ToolResult) (tc : ToolCall) : Msg :=
  let r := execTool tc
  { role := "tool"
    content :=
      match r.output with
      | some o => if o = "" then r.error.getD "" else o
      | none => r.error.getD ""
    tool_call_id := some tc.id
    tool_name := some tc.name }

/-- Step 9: execute each captured tool call, append its role=tool message
(atomically with a message-count increment), and emit the textual marker. -/
def toolLoop (execTool : ToolCall → ToolResult) : List ToolCall → List OEvent
  | [] => []
  | tc :: rest =>
      OEvent.toolExec tc.name
        :: OEvent.dbUpdate ⟨some (toolResultMsg execTool tc), true, 1, 0, 0⟩
        :: OEvent.emit (StreamChunk.text ("\n[Tool " ++ tc.name ++ ": "
             ++ statusValue (execTool tc).status ++ "]\n"))
        :: toolLoop execTool rest

/-- `memory_config.get("auto_extract", False)`. -/
def autoExtract (agent : AgentDoc) : Bool :=
  match agent.memory_config with
  | some mc => mc.auto_extract.getD false
  | none => false

/-- Steps 3–10 of `process_message`, once conversation and agent have been
found. -/
def processMessageFound (env : OrchEnv) (agent : AgentDoc)
    (user_message : String) : List OEvent :=
    -- step 3: context build (reads only; no conversation write)
    let _msgs := build_messages agent user_message env.searchResults
      env.convContext (orchestratorIncludeMemories agent)
    -- step 4: append the user message
    let userMsg : Msg := { role := "user", content := user_message }
    let u1 : AtomicUpdate := ⟨some userMsg, true, 1, 0, 0⟩
    -- step 5: adapter acquisition with fallback
    match getLlmWithFallback agent env.construct with
    | .error e =>
        [OEvent.dbUpdate u1, OEvent.acquireAdapter,
         OEvent.emit (StreamChunk.error ("No LLM available: " ++ e))]
    | .ok (cfg, is_fallback) =>
        let fbEvts :=
          if is_fallback then
            [OEvent.emit (StreamChunk.text ("\n[Using fallback LLM: "
               ++ cfg.backend ++ "/" ++ cfg.model ++ "]\n\n"))]
          else []
        -- step 7: stream the adapter
        let r := orchStreamLoop env.streamChunks ⟨[], [], none⟩
        let sEvts := r.1
        let acc := r.2.1
        let errored := r.2.2
        if errored then
          [OEvent.dbUpdate u1, OEvent.acquireAdapter] ++ fbEvts ++ sEvts
        else
          -- step 8: append the assistant message
          let assistantMsg : Msg :=
            { role := "assistant", content := String.join acc.parts,
              tool_calls := acc.tool_calls }
          let u2 : AtomicUpdate :=
            ⟨some assistantMsg, true, 1,
             (acc.usage.map Prod.fst).getD 0 + (acc.usage.map Prod.snd).getD 0,
             acc.tool_calls.length⟩
          -- step 9: tool execution, step 10: background extraction
          let toolEvts :=
            if !acc.tool_calls.isEmpty && env.hasRouter then
              toolLoop env.execTool acc.tool_calls
            else []
          let extractEvts :=
            if autoExtract agent then [OEvent.scheduleExtraction] else []
          [OEvent.dbUpdate u1, OEvent.acquireAdapter] ++ fbEvts ++ sEvts
            ++ [OEvent.dbUpdate u2] ++ toolEvts ++ extractEvts

/-- `Orchestrator.process_message` as its event trace: steps 1–2 (the DB
lookups, whose outcomes are in `env`) then the rest. -/
def processMessage (env : OrchEnv) (user_message : String) : List OEvent :=
  match env.conversation with
  | none => [OEvent.emit (StreamChunk.error "Conversation not found")]
  | some _ =>
  match env.agent with
  | none => [OEvent.emit (StreamChunk.error "Agent not found")]
  | some agent => processMessageFound env agent user_message

theorem processMessage_found (env : OrchEnv) (conv : Conversation)
    (agent : AgentDoc) (user_message : String)
    (hc : env.conversation = some conv) (ha : env.agent = some agent) :
    processMessage env user_message = processMessageFound env agent user_message := by
  rw [processMessage, hc, ha]

/-- The conversation updates of a trace, in order. -/
def dbUpdatesOf (tr : List OEvent) : List AtomicUpdate :=
  tr.filterMap (fun e => match e with | OEvent.dbUpdate u => some u | _ => none)

/-- The chunks the client sees, in order. -/
def chunksOf (tr : List OEvent) : List StreamChunk :=
  tr.filterMap (fun e => match e with | OEvent.emit c => some c | _ => none)

/-- The conversation document after a trace's updates. -/
def applyTrace (c : Conversation) (tr : List OEvent) : Conversation :=
  (dbUpdatesOf tr).foldl applyUpdate c

/-- The text parts of the adapter stream. -/
def textParts (cs : List StreamChunk) : List String :=
  cs.filterMap (fun c => match c with | StreamChunk.text s => some s | _ => none)

/-- The tool calls captured from the adapter stream. -/
def capturedToolCalls (cs : List StreamChunk) : List ToolCall :=
  cs.filterMap (fun c => match c with | StreamChunk.tool_call tc => some tc | _ => none)

def isErrorChunk : StreamChunk → Bool
  | StreamChunk.error _ => true
  | _ => false

/-- The last usage reported by a `done` chunk, if any. -/
def lastUsage : Option (ℕ × ℕ) → List StreamChunk → Option (ℕ × ℕ)
  | u, [] => u
  | u, c :: rest =>
      lastUsage (match c with | StreamChunk.done i o => some (i, o) | _ => u) rest

theorem orchStreamLoop_no_error : ∀ (cs : List StreamChunk) (acc : StreamAcc),
    (∀ c ∈ cs, isErrorChunk c = false) →
    orchStreamLoop cs acc
      = (cs.map OEvent.emit,
         ⟨acc.parts ++ textParts cs, acc.tool_calls ++ capturedToolCalls cs,
          lastUsage acc.usage cs⟩, false) := by
  intro cs
  induction cs with
  | nil =>
      intro acc _
      simp [orchStreamLoop, textParts, capturedToolCalls, lastUsage]
  | cons c rest ih =>
      intro acc h
      have hrest : ∀ x ∈ rest, isErrorChunk x = false :=
        fun x hx => h x (List.mem_cons_of_mem c hx)
      cases c with
      | text s =>
          simp [orchStreamLoop, ih _ hrest, textParts, capturedToolCalls, lastUsage]
      | tool_call tc =>
          simp [orchStreamLoop, ih _ hrest, textParts, capturedToolCalls, lastUsage]
      | done i o =>
          simp [orchStreamLoop, ih _ hrest, textParts, capturedToolCalls, lastUsage]
      | error m =>
          have := h _ (List.mem_cons_self _ rest)
          simp [isErrorChunk] at this

theorem applyUpdates_foldl (us : List AtomicUpdate) : ∀ (c : Conversation),
    ((us.foldl applyUpdate c).messages
        = c.messages ++ us.filterMap (fun u => u.push))
    ∧ (us.foldl applyUpdate c).stats.message_count
        = c.stats.message_count + (us.map (fun u => u.incMessageCount)).sum := by
  induction us with
  | nil => intro c; simp
  | cons u rest ih =>
      intro c
      simp only [List.foldl_cons, List.filterMap_cons, List.map_cons, List.sum_cons]
      have hrec := ih (applyUpdate c u)
      constructor
      · rw [hrec.1]
        cases hp : u.push with
        | none => simp [applyUpdate, hp]
        | some m => simp [applyUpdate, hp]
      · rw [hrec.2]
        simp only [applyUpdate]
        ring

theorem dbUpdatesOf_toolLoop (f : ToolCall → ToolResult) : ∀ (tcs : List ToolCall),
    dbUpdatesOf (toolLoop f tcs)
      = tcs.map (fun tc => ⟨some (toolResultMsg f tc), true, 1, 0, 0⟩) := by
  intro tcs
  induction tcs with
  | nil => rfl
  | cons tc rest ih =>
      simp only [toolLoop, dbUpdatesOf, List.filterMap_cons] at ih ⊢
      rw [ih, List.map_cons]

theorem dbUpdatesOf_map_emit (cs : List StreamChunk) :
    dbUpdatesOf (cs.map OEvent.emit) = [] := by
  induction cs with
  | nil => rfl
  | cons c rest ih =>
      simp only [List.map_cons, dbUpdatesOf, List.filterMap_cons] at ih ⊢
      exact ih

theorem dbUpdatesOf_append (a b : List OEvent) :
    dbUpdatesOf (a ++ b) = dbUpdatesOf a ++ dbUpdatesOf b := by
  simp [dbUpdatesOf]

theorem dbUpdatesOf_if_emit (b : Bool) (c : StreamChunk) :
    dbUpdatesOf (if b then [OEvent.emit c] else []) = [] := by
  cases b <;> rfl

theorem dbUpdatesOf_if_sched (b : Bool) :
    dbUpdatesOf (if b then [OEvent.scheduleExtraction] else []) = [] := by
  cases b <;> rfl

theorem filterMap_push_toolUpdates (f : ToolCall → ToolResult) :
    ∀ (tcs : List ToolCall),
    List.filterMap (fun u => u.push)
      (tcs.map (fun tc =>
        (⟨some (toolResultMsg f tc), true, 1, 0, 0⟩ : AtomicUpdate)))
      = tcs.map (toolResultMsg f) := by
  intro tcs
  induction tcs with
  | nil => rfl
  | cons tc rest ih =>
      simp only [List.map_cons, List.filterMap_cons] at ih ⊢
      rw [ih]

theorem sum_inc_toolUpdates (f : ToolCall → ToolResult) : ∀ (tcs : List ToolCall),
    (List.map (fun u => u.incMessageCount)
      (tcs.map (fun tc =>
        (⟨some (toolResultMsg f tc), true, 1, 0, 0⟩ : AtomicUpdate)))).sum
      = tcs.length := by
  intro tcs
  induction tcs with
  | nil => rfl
  | cons tc rest ih =>
      simp only [List.map_cons, List.sum_cons, List.length_cons, ih]
      omega

def isAcquire : OEvent → Bool
  | OEvent.acquireAdapter => true
  | _ => false

theorem processMessageFound_takeWhile (env : OrchEnv) (agent : AgentDoc)
    (um : String) :
    (processMessageFound env agent um).takeWhile (fun e => !(isAcquire e))
      = [OEvent.dbUpdate ⟨some { role := "user", content := um }, true, 1, 0, 0⟩] := by
  rw [processMessageFound]
  cases hg : getLlmWithFallback agent env.construct with
  | error e => rfl
  | ok p =>
      obtain ⟨cfg, isFb⟩ := p
      cases herr : (orchStreamLoop env.streamChunks ⟨[], [], none⟩).2.2 with
      | true => simp [herr, List.takeWhile_cons, isAcquire]
      | false => simp [herr, List.takeWhile_cons, isAcquire]

/-- C5. Within `process_message` (conversation and agent found), the atomic
user-message append — push + `updated_at` bump + message-count increment in
one update — occurs strictly before the adapter acquisition; and when no
primary or fallback adapter can be constructed, the trace is exactly the
user append, the failed acquisition, and a terminal error chunk, with the
user message still persisted. -/
theorem user_persisted_before_llm (env : OrchEnv) (user_message : String)
    (conv : Conversation) (agent : AgentDoc)
    (hc : env.conversation = some conv) (ha : env.agent = some agent) :
    (OEvent.dbUpdate ⟨some { role := "user", content := user_message }, true, 1, 0, 0⟩
       ∈ (processMessage env user_message).takeWhile (fun e => !(isAcquire e)))
    ∧ (∀ estr, getLlmWithFallback agent env.construct = .error estr →
        processMessage env user_message
          = [OEvent.dbUpdate
               ⟨some { role := "user", content := user_message }, true, 1, 0, 0⟩,
             OEvent.acquireAdapter,
             OEvent.emit (StreamChunk.error ("No LLM available: " ++ estr))]
        ∧ (applyTrace conv (processMessage env user_message)).messages
            = conv.messages ++ [{ role := "user", content := user_message }]) := by
  constructor
  · rw [processMessage_found env conv agent user_message hc ha,
      processMessageFound_takeWhile]
    simp
  · intro estr hg
    have htr : processMessage env user_message
        = [OEvent.dbUpdate
             ⟨some { role := "user", content := user_message }, true, 1, 0, 0⟩,
           OEvent.acquireAdapter,
           OEvent.emit (StreamChunk.error ("No LLM available: " ++ estr))] := by
      rw [processMessage_found env conv agent user_message hc ha,
        processMessageFound, hg]
    refine ⟨htr, ?_⟩
    rw [htr]
    simp [applyTrace, dbUpdatesOf, applyUpdate]

/-- C6. For a turn whose adapter stream ends with `done` (no error chunk
before it): the conversation gains exactly the user message, the assistant
message (text concatenation, captured tool calls), and one role=tool
message per captured tool call; every conversation update in the trace
pushes exactly one message together with a message-count increment of 1;
and the count invariant `stats.message_count = messages.length` is
preserved. -/
theorem turn_message_accounting (env : OrchEnv) (user_message : String)
    (conv : Conversation) (agent : AgentDoc) (cfg : LlmConfig) (isFb : Bool)
    (cs : List StreamChunk) (i o : ℕ)
    (hc : env.conversation = some conv) (ha : env.agent = some agent)
    (hok : getLlmWithFallback agent env.construct = .ok (cfg, isFb))
    (hstream : env.streamChunks = cs ++ [StreamChunk.done i o])
    (herr : ∀ c ∈ cs, isErrorChunk c = false)
    (hr : env.hasRouter = true)
    (hcount : conv.stats.message_count = conv.messages.length) :
    (applyTrace conv (processMessage env user_message)).messages
      = conv.messages
        ++ [{ role := "user", content := user_message }]
        ++ [{ role := "assistant", content := String.join (textParts cs),
              tool_calls := capturedToolCalls cs }]
        ++ (capturedToolCalls cs).map (toolResultMsg env.execTool)
    ∧ (∀ m ∈ (capturedToolCalls cs).map (toolResultMsg env.execTool),
         m.role = "tool")
    ∧ (∀ u ∈ dbUpdatesOf (processMessage env user_message),
         u.push.isSome = true ∧ u.incMessageCount = 1)
    ∧ (applyTrace conv (processMessage env user_message)).stats.message_count
      = (applyTrace conv (processMessage env user_message)).messages.length := by
  have hfull : ∀ c ∈ cs ++ [StreamChunk.done i o], isErrorChunk c = false := by
    intro c hcc
    rcases List.mem_append.mp hcc with h1 | h2
    · exact herr c h1
    · simp only [List.mem_singleton] at h2
      rw [h2]
      rfl
  have hloop := orchStreamLoop_no_error (cs ++ [StreamChunk.done i o])
    ⟨[], [], none⟩ hfull
  have htp : textParts (cs ++ [StreamChunk.done i o]) = textParts cs := by
    simp [textParts]
  have htc : capturedToolCalls (cs ++ [StreamChunk.done i o])
      = capturedToolCalls cs := by
    simp [capturedToolCalls]
  have htr : processMessage env user_message
      = [OEvent.dbUpdate
           ⟨some { role := "user", content := user_message }, true, 1, 0, 0⟩,
         OEvent.acquireAdapter]
        ++ (if isFb then
              [OEvent.emit (StreamChunk.text ("\n[Using fallback LLM: "
                 ++ cfg.backend ++ "/" ++ cfg.model ++ "]\n\n"))]
            else [])
        ++ (cs ++ [StreamChunk.done i o]).map OEvent.emit
        ++ [OEvent.dbUpdate
             ⟨some { role := "assistant", content := String.join (textParts cs),
                     tool_calls := capturedToolCalls cs }, true, 1,
              ((lastUsage none (cs ++ [StreamChunk.done i o])).map Prod.fst).getD 0
                + ((lastUsage none (cs ++ [StreamChunk.done i o])).map Prod.snd).getD 0,
              (capturedToolCalls cs).length⟩]
        ++ (if !(capturedToolCalls cs).isEmpty && env.hasRouter then
              toolLoop env.execTool (capturedToolCalls cs)
            else [])
        ++ (if autoExtract agent then [OEvent.scheduleExtraction] else []) := by
    rw [processMessage_found env conv agent user_message hc ha,
      processMessageFound, hok, hstream, hloop]
    simp [htp, htc]
  have htools : dbUpdatesOf
      (if !(capturedToolCalls cs).isEmpty && env.hasRouter then
        toolLoop env.execTool (capturedToolCalls cs)
      else [])
      = (capturedToolCalls cs).map
          (fun tc => ⟨some (toolResultMsg env.execTool tc), true, 1, 0, 0⟩) := by
    cases hcap : capturedToolCalls cs with
    | nil => rfl
    | cons t ts =>
        rw [hr]
        simp [dbUpdatesOf_toolLoop]
  have hdb : dbUpdatesOf (processMessage env user_message)
      = ⟨some { role := "user", content := user_message }, true, 1, 0, 0⟩
        :: ⟨some { role := "assistant", content := String.join (textParts cs),
                   tool_calls := capturedToolCalls cs }, true, 1,
            ((lastUsage none (cs ++ [StreamChunk.done i o])).map Prod.fst).getD 0
              + ((lastUsage none (cs ++ [StreamChunk.done i o])).map Prod.snd).getD 0,
            (capturedToolCalls cs).length⟩
        :: (capturedToolCalls cs).map
             (fun tc => ⟨some (toolResultMsg env.execTool tc), true, 1, 0, 0⟩) := by
    rw [htr, dbUpdatesOf_append, dbUpdatesOf_append, dbUpdatesOf_append,
      dbUpdatesOf_append, dbUpdatesOf_append, dbUpdatesOf_map_emit,
      dbUpdatesOf_if_emit, dbUpdatesOf_if_sched, htools]
    simp [dbUpdatesOf]
  have happly := applyUpdates_foldl (dbUpdatesOf (processMessage env user_message)) conv
  refine ⟨?_, ?_, ?_, ?_⟩
  · rw [applyTrace, happly.1, hdb]
    simp only [List.filterMap_cons, filterMap_push_toolUpdates]
    simp
  · intro m hm
    rcases List.mem_map.mp hm with ⟨tc, _, hmt⟩
    rw [← hmt]
    rfl
  · intro u hu
    rw [hdb] at hu
    rcases List.mem_cons.mp hu with h1 | hu
    · rw [h1]; exact ⟨rfl, rfl⟩
    rcases List.mem_cons.mp hu with h2 | hu
    · rw [h2]; exact ⟨rfl, rfl⟩
    · rcases List.mem_map.mp hu with ⟨tc, _, hmt⟩
      rw [← hmt]
      exact ⟨rfl, rfl⟩
  · rw [applyTrace, happly.1, happly.2, hdb]
    simp only [List.filterMap_cons, List.map_cons, List.sum_cons,
      filterMap_push_toolUpdates, sum_inc_toolUpdates]
    simp only [List.length_append, List.length_cons, List.length_nil,
      List.length_map, hcount]
    omega

/-- C10. For an agent document with no `capabilities` field, the
orchestrator computes `include_memories = true` (its dict read defaults to
`True`) yet the builder re-reads the flag with default `False`, so no
long-term search runs and the system message carries no memory block; in
general the memory path runs exactly when `capabilities.memory_enabled` is
explicitly `true`. -/
theorem memory_gate_requires_explicit_true (agent : AgentDoc)
    (user_message : String) (searchResults : List Memory)
    (convContext : List LMsg) :
    (agent.capabilities = none →
       orchestratorIncludeMemories agent = true
       ∧ (build_messages agent user_message searchResults convContext
            (orchestratorIncludeMemories agent)).2 = false
       ∧ (build_messages agent user_message searchResults convContext
            (orchestratorIncludeMemories agent)).1.head?
           = some (LMsg.mk "system" agent.system_prompt))
    ∧ ((build_messages agent user_message searchResults convContext
          (orchestratorIncludeMemories agent)).2 = true
        ↔ ∃ c, agent.capabilities = some c ∧ c.memory_enabled = some true) := by
  constructor
  · intro hnone
    refine ⟨?_, ?_, ?_⟩
    · rw [orchestratorIncludeMemories, hnone]
    · simp [build_messages, hnone]
    · simp [build_messages, hnone]
  · cases hcap : agent.capabilities with
    | none => simp [build_messages, orchestratorIncludeMemories, hcap]
    | some c =>
        cases hme : c.memory_enabled with
        | none =>
            simp [build_messages, orchestratorIncludeMemories, hcap, hme]
        | some b =>
            cases b <;>
              simp [build_messages, orchestratorIncludeMemories, hcap, hme]

/-! ### Concrete runs for the orchestrator witnesses -/

def wConv : Conversation := ⟨"agent-1", [], ⟨0, 0, 0⟩⟩

def wAgent : AgentDoc :=
  { system_prompt := "You are helpful."
    llm := ⟨"anthropic", "claude-3-5-sonnet"⟩ }

def wTc : ToolCall := ⟨"call_1", "filesystem", [("operation", "list_directory")]⟩

def wExec : ToolCall → ToolResult :=
  fun tc => ⟨tc.name, ToolStatus.success, some "entries", none⟩

def wCs : List StreamChunk :=
  [StreamChunk.text "Let me check.", StreamChunk.tool_call wTc]

def wEnvNoLlm : OrchEnv :=
  { conversation := some wConv
    agent := some wAgent
    construct := fun _ _ => .error "anthropic API key not configured"
    searchResults := []
    convContext := []
    streamChunks := []
    execTool := wExec
    hasRouter := true }

def wEnvOk : OrchEnv :=
  { wEnvNoLlm with
      construct := fun _ _ => .ok ()
      streamChunks := wCs ++ [StreamChunk.done 7 4] }

theorem user_persisted_before_llm_witness :
    (wEnvNoLlm.conversation = some wConv ∧ wEnvNoLlm.agent = some wAgent)
    ∧ ((OEvent.dbUpdate ⟨some { role := "user", content := "Hello" }, true, 1, 0, 0⟩
          ∈ (processMessage wEnvNoLlm "Hello").takeWhile (fun e => !(isAcquire e)))
       ∧ (∀ estr, getLlmWithFallback wAgent wEnvNoLlm.construct = .error estr →
           processMessage wEnvNoLlm "Hello"
             = [OEvent.dbUpdate
                  ⟨some { role := "user", content := "Hello" }, true, 1, 0, 0⟩,
                OEvent.acquireAdapter,
                OEvent.emit (StreamChunk.error ("No LLM available: " ++ estr))]
           ∧ (applyTrace wConv (processMessage wEnvNoLlm "Hello")).messages
               = wConv.messages ++ [{ role := "user", content := "Hello" }])) :=
  ⟨⟨rfl, rfl⟩, user_persisted_before_llm wEnvNoLlm "Hello" wConv wAgent rfl rfl⟩

theorem turn_message_accounting_witness :
    (wEnvOk.conversation = some wConv
     ∧ wEnvOk.agent = some wAgent
     ∧ getLlmWithFallback wAgent wEnvOk.construct
         = .ok (⟨"anthropic", "claude-3-5-sonnet"⟩, false)
     ∧ wEnvOk.streamChunks = wCs ++ [StreamChunk.done 7 4]
     ∧ (∀ c ∈ wCs, isErrorChunk c = false)
     ∧ wEnvOk.hasRouter = true
     ∧ wConv.stats.message_count = wConv.messages.length)
    ∧ ((applyTrace wConv (processMessage wEnvOk "List my home directory.")).messages
        = wConv.messages
          ++ [{ role := "user", content := "List my home directory." }]
          ++ [{ role := "assistant", content := String.join (textParts wCs),
                tool_calls := capturedToolCalls wCs }]
          ++ (capturedToolCalls wCs).map (toolResultMsg wEnvOk.execTool)
       ∧ (∀ m ∈ (capturedToolCalls wCs).map (toolResultMsg wEnvOk.execTool),
            m.role = "tool")
       ∧ (∀ u ∈ dbUpdatesOf (processMessage wEnvOk "List my home directory."),
            u.push.isSome = true ∧ u.incMessageCount = 1)
       ∧ (applyTrace wConv
            (processMessage wEnvOk "List my home directory.")).stats.message_count
          = (applyTrace wConv
              (processMessage wEnvOk "List my home directory.")).messages.length) :=
  ⟨⟨rfl, rfl, rfl, rfl, by decide, rfl, rfl⟩,
   turn_message_accounting wEnvOk "List my home directory." wConv wAgent
     ⟨"anthropic", "claude-3-5-sonnet"⟩ false wCs 7 4
     rfl rfl rfl rfl (by decide) rfl rfl⟩

end Aria
